import Mathlib

/-!
Verification development for the Russian-Law-MCP ingestion pipeline.

Shallow embedding of:
- `src/scripts/lib/fetcher.ts` (`rateLimit`, `fetchWithRateLimit`),
- `scripts/lib/parser.ts` (`parseRussianText` and its helpers), and
- the census/ingestion orchestrator (`ingestLaw`, `runIngestion`, `runCensus`, `main`).

Conventions of the embedding:
- JS strings are Lean `String`s; character-level processing is done on `List Char`.
  JS `string.length` counts UTF-16 code units; for the BMP text handled here
  (Cyrillic legal text, ASCII markup) this coincides with the character count.
- The regular expressions of the parser are translated into explicit
  character-list matchers, including JS quirks: `\w`/`\b` are ASCII-only (a
  Cyrillic letter is not a word character), `\s` is the JS whitespace class,
  and `.` excludes line terminators.
- `Date.now()` timestamps are `Int` milliseconds; `setTimeout` is assumed to
  sleep exactly the requested duration.
- The file system (seed directory) is a pure association list keyed by law id;
  the network is an oracle function supplied as a parameter.
-/

set_option maxRecDepth 10000

namespace RussianLawMCP

-- ═══════════════════════════════════════════════════════════════════════════
-- Character classes (JS regex semantics)
-- ═══════════════════════════════════════════════════════════════════════════

/-- The JS `\s` whitespace class (also the class used by `String.prototype.trim`). -/
def jsWhitespace (c : Char) : Bool :=
  let n := c.toNat
  n = 0x20 || n = 0x9 || n = 0xA || n = 0xB || n = 0xC || n = 0xD ||
  n = 0xA0 || n = 0x1680 || (0x2000 ≤ n && n ≤ 0x200A) ||
  n = 0x2028 || n = 0x2029 || n = 0x202F || n = 0x205F || n = 0x3000 || n = 0xFEFF

/-- The JS `\w` word-character class: ASCII letters, digits, underscore.
Cyrillic letters are NOT word characters in a non-unicode JS regex. -/
def jsWordChar (c : Char) : Bool := c.isAlpha || c.isDigit || c == '_'

/-- Characters not matched by `.` in a JS regex (line terminators). -/
def jsLineTerm (c : Char) : Bool :=
  c == '\n' || c == '\r' || c.toNat = 0x2028 || c.toNat = 0x2029

/-- Simple case folding as performed by the `/i` flag: ASCII plus the basic
Cyrillic uppercase range (А-Я → а-я, Ё → ё). -/
def jsLower (c : Char) : Char :=
  if 0x410 ≤ c.toNat ∧ c.toNat ≤ 0x42F then Char.ofNat (c.toNat + 0x20)
  else if c.toNat = 0x401 then Char.ofNat 0x451
  else c.toLower

/-- `String.prototype.trim` on a character list: strip JS whitespace from both ends. -/
def jsTrim (l : List Char) : List Char :=
  ((l.dropWhile jsWhitespace).reverse.dropWhile jsWhitespace).reverse

/-- Split on the regex `/\r?\n/`, as `text.split(/\r?\n/)` does. -/
def splitLines : List Char → List (List Char)
  | [] => [[]]
  | '\r' :: '\n' :: rest => [] :: splitLines rest
  | '\n' :: rest => [] :: splitLines rest
  | c :: rest =>
    match splitLines rest with
    | [] => [[c]]
    | line :: more => (c :: line) :: more

/-- `startsWithSeq hay needle`: does `hay` begin with `needle`? -/
def startsWithSeq : List Char → List Char → Bool
  | _, [] => true
  | [], _ :: _ => false
  | c :: cs, d :: ds => c == d && startsWithSeq cs ds

/-- Case-insensitive version of `startsWithSeq` (both sides folded by `jsLower`). -/
def startsWithSeqCI : List Char → List Char → Bool
  | _, [] => true
  | [], _ :: _ => false
  | c :: cs, d :: ds => jsLower c == jsLower d && startsWithSeqCI cs ds

/-- `String.prototype.includes` on character lists. -/
def containsSeq : List Char → List Char → Bool
  | hay, needle =>
    match hay with
    | [] => needle.isEmpty
    | _ :: rest => startsWithSeq hay needle || containsSeq rest needle

-- ═══════════════════════════════════════════════════════════════════════════
-- StructuralParser: regex matchers (scripts/lib/parser.ts)
-- ═══════════════════════════════════════════════════════════════════════════

/-- The keyword opening an article-start line: the literal `Статья` (case-sensitive). -/
def articleKeyword : List Char := ['С', 'т', 'а', 'т', 'ь', 'я']

/-- `ARTICLE_PATTERN = /^\s*Статья\s+(\d+(?:\.\d+)?)\.\s*(.*)/`.
Returns `(capture 1, capture 2)` on success.  The optional group `(?:\.\d+)?`
is greedy but must leave a literal `.` afterwards; when it cannot, regex
backtracking makes it match empty (taking fewer digits inside the group would
place a digit where the literal `.` is required, so only those two outcomes
are possible). -/
def matchArticleMain (l : List Char) : Option (List Char × List Char) :=
  let l1 := l.dropWhile jsWhitespace
  if startsWithSeq l1 articleKeyword then
    let l2 := l1.drop articleKeyword.length
    match l2 with
    | c :: _ =>
      if jsWhitespace c then
        let l3 := l2.dropWhile jsWhitespace
        let d1 := l3.takeWhile Char.isDigit
        if d1.isEmpty then none
        else
          match l3.drop d1.length with
          | '.' :: l5 =>
            let d2 := l5.takeWhile Char.isDigit
            let l6 := l5.drop d2.length
            if !d2.isEmpty && (match l6 with | '.' :: _ => true | _ => false) then
              -- group matched `.d2`, literal `.` follows
              some (d1 ++ '.' :: d2, ((l6.drop 1).dropWhile jsWhitespace).takeWhile (fun c => !jsLineTerm c))
            else
              -- group matches empty; the `.` after d1 is the literal one
              some (d1, (l5.dropWhile jsWhitespace).takeWhile (fun c => !jsLineTerm c))
          | _ => none
      else none
    | [] => none
  else none

/-- `ARTICLE_PATTERN_ALT = /^\s*Статья\s+(\d+(?:\.\d+)?)\b[\.\s]*(.*)/`.
`\b` after the number: the preceding character is a digit (a word character),
so the boundary holds iff the next character is absent or not an ASCII word
character.  When the greedy optional group `.d2` fails the boundary test, the
regex backtracks to the empty group, where the boundary after `d1` holds
because the following character is `.`. -/
def matchArticleAlt (l : List Char) : Option (List Char × List Char) :=
  let l1 := l.dropWhile jsWhitespace
  if startsWithSeq l1 articleKeyword then
    let l2 := l1.drop articleKeyword.length
    match l2 with
    | c :: _ =>
      if jsWhitespace c then
        let l3 := l2.dropWhile jsWhitespace
        let d1 := l3.takeWhile Char.isDigit
        if d1.isEmpty then none
        else
          let l4 := l3.drop d1.length
          let tailOf := fun (rest : List Char) =>
            ((rest.dropWhile (fun c => c == '.' || jsWhitespace c)).takeWhile
              (fun c => !jsLineTerm c))
          match l4 with
          | '.' :: l5 =>
            let d2 := l5.takeWhile Char.isDigit
            let l6 := l5.drop d2.length
            if !d2.isEmpty && (match l6 with | [] => true | c :: _ => !jsWordChar c) then
              some (d1 ++ '.' :: d2, tailOf l6)
            else
              -- boundary after d1 holds: the next character is '.'
              some (d1, tailOf l4)
          | [] => some (d1, [])
          | c :: _ => if jsWordChar c then none else some (d1, tailOf l4)
      else none
    | [] => none
  else none

/-- `line.match(ARTICLE_PATTERN) || line.match(ARTICLE_PATTERN_ALT)` (parser.ts line 192). -/
def articleLineMatch (l : List Char) : Option (List Char × List Char) :=
  (matchArticleMain l).orElse (fun _ => matchArticleAlt l)

/-- `CHAPTER_PATTERN = /^\s*(Глава|Раздел|Часть|Подраздел)\s+[\dIVXLCDM]+/i`
as a test.  No keyword is a prefix of another, so alternation order is
irrelevant. -/
def chapterTest (l : List Char) : Bool :=
  let l1 := l.dropWhile jsWhitespace
  let kw := fun (w : List Char) =>
    if startsWithSeqCI l1 w then
      let l2 := l1.drop w.length
      match l2 with
      | c :: _ =>
        jsWhitespace c &&
          (match l2.dropWhile jsWhitespace with
           | d :: _ => d.isDigit || ['I','V','X','L','C','D','M'].contains (jsLower d).toUpper
           | [] => false)
      | [] => false
    else false
  kw ['г','л','а','в','а'] || kw ['р','а','з','д','е','л'] ||
  kw ['ч','а','с','т','ь'] || kw ['п','о','д','р','а','з','д','е','л']

/-- `APPENDIX_PATTERN = /^\s*Приложение\b/i` as a test.  The character before
the `\b` is the Cyrillic `е`, which is not a JS word character, so the boundary
holds only when the next character IS an ASCII word character. -/
def appendixTest (l : List Char) : Bool :=
  let l1 := l.dropWhile jsWhitespace
  let w : List Char := ['п','р','и','л','о','ж','е','н','и','е']
  startsWithSeqCI l1 w &&
    (match l1.drop w.length with
     | c :: _ => jsWordChar c
     | [] => false)

/-- `restOfLine.match(/^\d+\.\s/)` as a test (an enumerated sub-item such as `1. `). -/
def enumItemTest (l : List Char) : Bool :=
  let d := l.takeWhile Char.isDigit
  !d.isEmpty &&
    (match l.drop d.length with
     | '.' :: c :: _ => jsWhitespace c
     | _ => false)

-- ═══════════════════════════════════════════════════════════════════════════
-- StructuralParser: state machine (parseRussianText)
-- ═══════════════════════════════════════════════════════════════════════════

/-- One extracted article (interface `ParsedProvision` of parser.ts). -/
structure ParsedProvision where
  article : String
  title : String
  content : String
  provision_ref : String
  order_index : Nat
deriving DecidableEq

/-- The mutable accumulator of `parseRussianText`. -/
structure ParserState where
  provisions : List ParsedProvision
  currentArticleNum : List Char
  currentArticleTitle : List Char
  currentContent : List (List Char)
  orderIndex : Nat
  inAppendix : Bool
deriving DecidableEq

def initParserState : ParserState := ⟨[], [], [], [], 0, false⟩

/-- `.replace(/\n{3,}/g, '\n\n')`: collapse runs of 3+ newlines to exactly two.
`k` counts pending consecutive newlines. -/
def collapseNewlinesAux (k : Nat) : List Char → List Char
  | [] => List.replicate (min k 2) '\n'
  | c :: rest =>
    if c == '\n' then collapseNewlinesAux (k + 1) rest
    else List.replicate (min k 2) '\n' ++ c :: collapseNewlinesAux 0 rest

def collapseNewlines (l : List Char) : List Char := collapseNewlinesAux 0 l

/-- `flushArticle` (parser.ts lines 140-160): join the accumulated body lines
with newlines, collapse 3+ blank lines, trim; emit a provision only when both
an article number is present and the resulting content is non-empty; always
reset the accumulator. -/
def flushArticle (s : ParserState) : ParserState :=
  if !s.currentArticleNum.isEmpty && !s.currentContent.isEmpty then
    if !(jsTrim (collapseNewlines (List.intercalate ['\n'] s.currentContent))).isEmpty then
      { s with
        provisions := s.provisions ++
          [{ article := s.currentArticleNum.asString,
             title := s.currentArticleTitle.asString,
             content := (jsTrim (collapseNewlines
               (List.intercalate ['\n'] s.currentContent))).asString,
             provision_ref := s.currentArticleNum.asString,
             order_index := s.orderIndex }],
        orderIndex := s.orderIndex + 1,
        currentArticleNum := [], currentArticleTitle := [], currentContent := [] }
    else { s with currentArticleNum := [], currentArticleTitle := [], currentContent := [] }
  else { s with currentArticleNum := [], currentArticleTitle := [], currentContent := [] }

/-- The article-start branch of the line loop (parser.ts lines 194-212):
flush the previous article, start the new number, and classify the trimmed
remainder of the line as title or first body line. -/
def processArticleStart (s : ParserState) (num rest : List Char) : ParserState :=
  if !(jsTrim rest).isEmpty then
    if (jsTrim rest).length < 200 && !enumItemTest (jsTrim rest) then
      { flushArticle s with currentArticleNum := num, currentArticleTitle := jsTrim rest }
    else
      { flushArticle s with
        currentArticleNum := num,
        currentContent := (flushArticle s).currentContent ++ [jsTrim rest] }
  else { flushArticle s with currentArticleNum := num }

/-- Body of the `for (const rawLine of lines)` loop of `parseRussianText`.
When the line starts an article while in an appendix, the source clears the
appendix flag and falls through to the article branch; in the source the two
branches of the title-continuation conditional (lines 223-234) both execute
`currentContent.push(line)`, so they collapse to a single append here. -/
def processLine (s : ParserState) (rawLine : List Char) : ParserState :=
  if (jsTrim rawLine).isEmpty then
    if !s.currentArticleNum.isEmpty && !s.currentContent.isEmpty then
      { s with currentContent := s.currentContent ++ [[]] }
    else s
  else if appendixTest (jsTrim rawLine) then
    flushArticle { s with inAppendix := true }
  else if s.inAppendix && (articleLineMatch (jsTrim rawLine)).isNone then
    s
  else
    match articleLineMatch (jsTrim rawLine) with
    | some (num, rest) =>
      processArticleStart { s with inAppendix := false } num rest
    | none =>
      if chapterTest (jsTrim rawLine) then { s with inAppendix := false }
      else if !s.currentArticleNum.isEmpty then
        { s with
          inAppendix := false,
          currentContent := s.currentContent ++ [jsTrim rawLine] }
      else { s with inAppendix := false }

/-- The emitted (pre-deduplication) provision list of `parseRussianText`:
the line loop followed by the final `flushArticle()`. -/
def collectProvisions (text : String) : List ParsedProvision :=
  (flushArticle ((splitLines text.toList).foldl processLine initParserState)).provisions

/-- One step of the deduplication loop (parser.ts lines 246-256): the `seen`
map always points at the first (and only) element of the accumulator carrying
a given article number, so merging appends the duplicate's content to that
first occurrence; otherwise the provision is appended at the end. -/
def mergeInto : List ParsedProvision → ParsedProvision → List ParsedProvision
  | [], p => [p]
  | q :: rest, p =>
    if q.article = p.article then
      { q with content := q.content ++ "\n\n" ++ p.content } :: rest
    else q :: mergeInto rest p

def dedupProvisions (ps : List ParsedProvision) : List ParsedProvision :=
  ps.foldl mergeInto []

/-- The re-indexing loop (parser.ts lines 259-261): `deduped[i].order_index = i`. -/
def reindexFrom (i : Nat) : List ParsedProvision → List ParsedProvision
  | [] => []
  | p :: ps => { p with order_index := i } :: reindexFrom (i + 1) ps

/-- `parseRussianText` (parser.ts lines 130-264). -/
def parseRussianText (text : String) : List ParsedProvision :=
  reindexFrom 0 (dedupProvisions (collectProvisions text))

-- ═══════════════════════════════════════════════════════════════════════════
-- RateLimitedFetcher (src/scripts/lib/fetcher.ts)
-- ═══════════════════════════════════════════════════════════════════════════

/-- Interface `FetchResult` of fetcher.ts: status, decoded body, content type.
The body carries the already-decoded text (the windows-1251/utf-8 decoding
step is an injective re-coding that the model keeps abstract). -/
structure FetchResult where
  status : Nat
  body : String
  contentType : String
deriving DecidableEq

/-- What one `fetch(...)` attempt inside `fetchWithRateLimit` produces:
either an HTTP response or a network-level exception (timeout/abort/connection
failure, surfaced as a thrown error). -/
inductive AttemptOutcome where
  | response (status : Nat) (body : String) (contentType : String)
  | netError (msg : String)
deriving DecidableEq

/-- `response.status === 429 || response.status >= 500` (fetcher.ts line 57). -/
def retryableStatus (status : Nat) : Bool := status == 429 || 500 ≤ status

/-- An attempt outcome that triggers the retry path when attempts remain. -/
def retryableOutcome : AttemptOutcome → Bool
  | .response st _ _ => retryableStatus st
  | .netError _ => true

/-- The retry loop of `fetchWithRateLimit` (fetcher.ts lines 39-105), run
against the list of outcomes of attempts 0..maxRetries (so the list has
`maxRetries + 1` elements; the singleton case is the final attempt, where
`attempt < maxRetries` is false).  On a retryable HTTP status with attempts
remaining it retries; on the FINAL attempt the retry guard fails and control
falls through to the `return` that packages the response.  A network-level
exception on the final attempt is rethrown.  The `[]` case is the
post-loop `throw` of line 105 (unreachable when the list is non-empty). -/
def runAttempts : List AttemptOutcome → Except String FetchResult
  | [] => .error "Failed to fetch after retries"
  | o :: rest =>
    match o with
    | .response st b ct =>
      -- retry only when the status is retryable AND attempts remain;
      -- otherwise control reaches the `return` (even for a final 429/5xx)
      if retryableStatus st && !rest.isEmpty then runAttempts rest
      else .ok ⟨st, b, ct⟩
    | .netError msg =>
      if !rest.isEmpty then runAttempts rest else .error msg

-- ═══════════════════════════════════════════════════════════════════════════
-- Rate-limiter timing model (fetcher.ts lines 15-24, 36-41, 59, 94)
-- ═══════════════════════════════════════════════════════════════════════════

/-- `MIN_DELAY_MS` of fetcher.ts. -/
def MIN_DELAY_MS : Int := 1000

/-- `rateLimit()` (fetcher.ts lines 17-24): given the module-level
`lastRequestTime` and the current clock, return the time at which the function
returns (after the conditional sleep); the source then stores that same value
back into `lastRequestTime`.  `setTimeout` is assumed to sleep exactly the
requested duration. -/
def rateLimitStep (lastRequestTime now : Int) : Int :=
  if now - lastRequestTime < MIN_DELAY_MS then lastRequestTime + MIN_DELAY_MS else now

/-- Request-send times and finish time of the retry loop of one
`fetchWithRateLimit` call: each list element is (attempt outcome, duration of
that attempt in ms).  The first component of the result lists the send times,
the second is the time at which the call returns or throws.  Backoff follows
lines 59 (`2^(attempt+1) * 1000` for HTTP-status retries) and 94
(`2^(attempt+1) * 2000` for network-exception retries); `rest ≠ []` encodes
`attempt < maxRetries`. -/
def attemptSendTimes (attempt : Nat) (t : Int) :
    List (AttemptOutcome × Int) → List Int × Int
  | [] => ([], t)
  | (o, d) :: rest =>
    match o with
    | .response st _ _ =>
      if retryableStatus st && !rest.isEmpty then
        let next := attemptSendTimes (attempt + 1) (t + d + 2 ^ (attempt + 1) * 1000) rest
        (t :: next.1, next.2)
      else ([t], t + d)
    | .netError _ =>
      if !rest.isEmpty then
        let next := attemptSendTimes (attempt + 1) (t + d + 2 ^ (attempt + 1) * 2000) rest
        (t :: next.1, next.2)
      else ([t], t + d)

/-- Timing view of one `fetchWithRateLimit` call. -/
structure FetchTiming where
  sendTimes : List Int
  finishTime : Int
  lastRequestTime : Int
deriving DecidableEq

/-- One `fetchWithRateLimit` call as seen by the wall clock: `rateLimit()` runs
once, before the retry loop (fetcher.ts line 37); the updated module-level
`lastRequestTime` equals the time of the FIRST request, and retries inside the
loop do not touch it. -/
def fetchCallTiming (lastRequestTime start : Int)
    (attempts : List (AttemptOutcome × Int)) : FetchTiming :=
  let t1 := rateLimitStep lastRequestTime start
  let r := attemptSendTimes 0 t1 attempts
  ⟨r.1, r.2, t1⟩

-- ═══════════════════════════════════════════════════════════════════════════
-- Catalog (scripts/lib/census-data.ts)
-- ═══════════════════════════════════════════════════════════════════════════

inductive CensusClassification where
  | ingestable | ocr_needed | inaccessible | excluded
deriving DecidableEq

def classificationLabel : CensusClassification → String
  | .ingestable => "ingestable"
  | .ocr_needed => "ocr_needed"
  | .inaccessible => "inaccessible"
  | .excluded => "excluded"

/-- Interface `CensusEntry` of census-data.ts (the `eu_references` field is
omitted: it feeds only `writeEuReferences`, which writes a separate artifact
with no network activity and no effect on per-law seeds or run statistics). -/
structure CensusEntry where
  id : String
  nd : String
  title : String
  title_en : String
  identifier : String
  law_type : String
  status : String
  effective_date : String
  publication_date : Option String
  last_amended : Option String
  classification : CensusClassification
  description : Option String
  source_url : String
deriving DecidableEq

-- ═══════════════════════════════════════════════════════════════════════════
-- IngestionOrchestrator (ingest.ts: ingestLaw / runIngestion / runCensus / main)
-- ═══════════════════════════════════════════════════════════════════════════

/-- Interface `SeedProvision` of ingest.ts. -/
structure SeedProvision where
  article : String
  title : Option String
  content : String
  part : Option String
  paragraph : Option String
  provision_ref : Option String
  order_index : Option Nat
deriving DecidableEq

/-- Interface `SeedLaw` of ingest.ts. -/
structure SeedLaw where
  id : String
  title : String
  title_en : Option String
  identifier : String
  law_type : String
  status : String
  effective_date : Option String
  source_url : Option String
  last_amended : Option String
  last_updated : Option String
  description : Option String
deriving DecidableEq

/-- Interface `SeedFile` of ingest.ts. -/
structure SeedFile where
  law : SeedLaw
  provisions : List SeedProvision
deriving DecidableEq

/-- A `ParsedProvision` used where a `SeedProvision` is expected
(TS structural subtyping at `provisions = parseRussianText(...)`). -/
def toSeedProvision (p : ParsedProvision) : SeedProvision :=
  ⟨p.article, some p.title, p.content, none, none, some p.provision_ref, some p.order_index⟩

/-- A seed file on disk: either valid JSON (a `SeedFile`) or corrupt
(the `JSON.parse` in the resumability check throws). -/
inductive StoredFile where
  | corrupt
  | seed (f : SeedFile)
deriving DecidableEq

/-- The seed directory as an association list keyed by law id. -/
def Store := List (String × StoredFile)

instance : DecidableEq Store := by unfold Store; infer_instance

def storeGet : Store → String → Option StoredFile
  | [], _ => none
  | (k, v) :: rest, id => if k = id then some v else storeGet rest id

/-- `fs.writeFileSync(seedPath, ...)`: whole-file overwrite. -/
def storeSet (store : Store) (id : String) (f : StoredFile) : Store :=
  (id, f) :: store

/-- What `fetchPravoLawText(entry.nd)` produces for the orchestrator: a
`FetchResult` or a thrown error (its internal retries are below this level). -/
inductive FetchReply where
  | reply (status : Nat) (body : String) (contentType : String)
  | netThrow (msg : String)
deriving DecidableEq

/-- Interface `CensusResult` of ingest.ts. -/
structure CensusResult where
  entry : CensusEntry
  ingested : Bool
  provision_count : Nat
  error : Option String
deriving DecidableEq

/-- Either `ingestLaw` returned a `CensusResult`, or it threw (the only throw
site in the model is the seed-file write; the catch in `runIngestion`
converts the exception into a failed result). -/
inductive IngestOutcome where
  | ok (r : CensusResult)
  | threw (msg : String)
deriving DecidableEq

/-- Result of one `ingestLaw` call: the store afterwards, the outcome, and the
number of network calls performed. -/
structure IngestStep where
  store : Store
  outcome : IngestOutcome
  networkCalls : Nat
deriving DecidableEq

/-- The placeholder provision (ingest.ts lines 243-249).  JS
`entry.description || entry.title` treats both `undefined` and the empty
string as falsy. -/
def placeholderProvision (entry : CensusEntry) : SeedProvision :=
  { article := "0",
    title := some entry.title,
    content :=
      (match entry.description with
       | some d => if d = "" then entry.title else d
       | none => entry.title) ++
      "\n\nФедеральное законодательство Российской Федерации.\nИсточник: " ++
      entry.source_url,
    part := none, paragraph := none,
    provision_ref := some "0", order_index := some 0 }

/-- The `SeedLaw` block built by `ingestLaw` (ingest.ts lines 254-266);
`runDate` stands for `new Date().toISOString().split('T')[0]`. -/
def seedLawOf (runDate : String) (entry : CensusEntry) : SeedLaw :=
  { id := entry.id, title := entry.title, title_en := some entry.title_en,
    identifier := entry.identifier, law_type := entry.law_type,
    status := entry.status, effective_date := some entry.effective_date,
    source_url := some entry.source_url, last_amended := entry.last_amended,
    last_updated := some runDate, description := entry.description }

/-- `result.body.includes('<html') || result.body.includes('<HTML')`. -/
def looksLikeHtml (body : String) : Bool :=
  containsSeq body.toList "<html".toList || containsSeq body.toList "<HTML".toList

/-- The fetch-and-parse phase of `ingestLaw` (ingest.ts lines 217-237): the
extracted provisions and the number of network calls made.  `htmlParse`
stands for `parsePravoHtml(...).provisions` (whose cheerio DOM extraction is
kept abstract); a thrown fetch error is caught (line 233): a warning is
logged and extraction stays empty. -/
def fetchPhase (skipFetch : Bool) (htmlParse : String → List ParsedProvision)
    (fetchO : String → FetchReply) (entry : CensusEntry) :
    List SeedProvision × Nat :=
  if skipFetch then ([], 0)
  else
    match fetchO entry.nd with
    | .reply status body _ =>
      (if status = 200 ∧ body.length > 100 then
        (if looksLikeHtml body then (htmlParse body).map toSeedProvision
         else (parseRussianText body).map toSeedProvision)
       else [], 1)
    | .netThrow _ => ([], 1)

/-- ingest.ts lines 241-250: fall back to the single placeholder provision
when nothing was extracted. -/
def provisionsOrPlaceholder (entry : CensusEntry) (ps : List SeedProvision) :
    List SeedProvision :=
  if ps.isEmpty then [placeholderProvision entry] else ps

/-- The non-skip tail of `ingestLaw` (classification gate onward, ingest.ts
lines 207-277).  `persistO` tells whether `fs.writeFileSync` succeeds for a
given id; a failed write throws out of `ingestLaw` (after the fetch has
already happened). -/
def ingestLawFresh (skipFetch : Bool) (runDate : String)
    (htmlParse : String → List ParsedProvision)
    (fetchO : String → FetchReply) (persistO : String → Bool)
    (store : Store) (entry : CensusEntry) : IngestStep :=
  if entry.classification ≠ .ingestable then
    ⟨store,
     .ok ⟨entry, false, 0,
          some ("Classification: " ++ classificationLabel entry.classification)⟩,
     0⟩
  else if persistO entry.id then
    ⟨storeSet store entry.id
       (.seed ⟨seedLawOf runDate entry,
         provisionsOrPlaceholder entry (fetchPhase skipFetch htmlParse fetchO entry).1⟩),
     .ok ⟨entry, true,
       (provisionsOrPlaceholder entry
         (fetchPhase skipFetch htmlParse fetchO entry).1).length, none⟩,
     (fetchPhase skipFetch htmlParse fetchO entry).2⟩
  else
    ⟨store, .threw ("EACCES: write failed for " ++ entry.id),
     (fetchPhase skipFetch htmlParse fetchO entry).2⟩

/-- `ingestLaw` (ingest.ts lines 188-278).  The resumability check reads the
stored seed; a corrupt file or an empty provision list falls through to
re-ingestion. -/
def ingestLaw (skipFetch : Bool) (runDate : String)
    (htmlParse : String → List ParsedProvision)
    (fetchO : String → FetchReply) (persistO : String → Bool)
    (store : Store) (entry : CensusEntry) : IngestStep :=
  match storeGet store entry.id with
  | some (.seed existing) =>
    if existing.provisions.length > 0 then
      ⟨store, .ok ⟨entry, true, existing.provisions.length, none⟩, 0⟩
    else ingestLawFresh skipFetch runDate htmlParse fetchO persistO store entry
  | some .corrupt =>
    ingestLawFresh skipFetch runDate htmlParse fetchO persistO store entry
  | none =>
    ingestLawFresh skipFetch runDate htmlParse fetchO persistO store entry

/-- The aggregate state of `runIngestion` (counters of lines 298-301 plus the
results list, with the attempted-entry count and total network calls). -/
structure RunReport where
  totalProcessed : Nat
  successCount : Nat
  failCount : Nat
  skipCount : Nat
  totalProvisions : Nat
  results : List CensusResult
  networkCalls : Nat
deriving DecidableEq

/-- `result.error?.includes('already')` (ingest.ts line 314). -/
def errorSaysAlready (e : Option String) : Bool :=
  match e with
  | some s => containsSeq s.toList "already".toList
  | none => false

/-- Report bookkeeping of the entry loop (ingest.ts lines 306-339): the
success/skip/fail counters and the results list updated with one entry's
outcome; the catch branch records a thrown error as a failed result. -/
def applyOutcome (entry : CensusEntry) (rpt : RunReport) (o : IngestOutcome)
    (ncalls : Nat) : RunReport :=
  match o with
  | .ok r =>
    { rpt with
      results := rpt.results ++ [r],
      successCount := if r.ingested then rpt.successCount + 1 else rpt.successCount,
      totalProvisions :=
        if r.ingested then rpt.totalProvisions + r.provision_count
        else rpt.totalProvisions,
      skipCount :=
        if !r.ingested && errorSaysAlready r.error then rpt.skipCount + 1
        else rpt.skipCount,
      failCount :=
        if !r.ingested && !errorSaysAlready r.error then rpt.failCount + 1
        else rpt.failCount,
      networkCalls := rpt.networkCalls + ncalls }
  | .threw msg =>
    { rpt with
      results := rpt.results ++ [⟨entry, false, 0, some msg⟩],
      failCount := rpt.failCount + 1,
      networkCalls := rpt.networkCalls + ncalls }

/-- The body of the entry loop of `runIngestion` (ingest.ts lines 303-340):
process one entry, thread the store, and update the report; processing
always continues with the next entry. -/
def ingestFold (skipFetch : Bool) (runDate : String)
    (htmlParse : String → List ParsedProvision)
    (fetchO : String → FetchReply) (persistO : String → Bool)
    (acc : Store × RunReport) (entry : CensusEntry) : Store × RunReport :=
  ((ingestLaw skipFetch runDate htmlParse fetchO persistO acc.1 entry).store,
   applyOutcome entry acc.2
     (ingestLaw skipFetch runDate htmlParse fetchO persistO acc.1 entry).outcome
     (ingestLaw skipFetch runDate htmlParse fetchO persistO acc.1 entry).networkCalls)

/-- The entry selection of `runIngestion` (ingest.ts lines 288-289): keep
`ingestable` entries, then apply the `--limit` cap. -/
def toProcessOf (limit : Nat) (census : List CensusEntry) : List CensusEntry :=
  if limit > 0 then
    (census.filter (fun e => decide (e.classification = .ingestable))).take limit
  else census.filter (fun e => decide (e.classification = .ingestable))

/-- `runIngestion` (ingest.ts lines 280-382). -/
def runIngestion (limit : Nat) (skipFetch : Bool) (runDate : String)
    (htmlParse : String → List ParsedProvision)
    (fetchO : String → FetchReply) (persistO : String → Bool)
    (census : List CensusEntry) (store : Store) : Store × RunReport :=
  (toProcessOf limit census).foldl
    (ingestFold skipFetch runDate htmlParse fetchO persistO)
    (store, ⟨(toProcessOf limit census).length, 0, 0, 0, 0, [], 0⟩)

/-- The failed-laws listing of the run summary (ingest.ts lines 361-365):
the results with `ingested = false`, as (identifier, reason) pairs. -/
def failedLaws (rpt : RunReport) : List (String × Option String) :=
  (rpt.results.filter (fun r => !r.ingested)).map (fun r => (r.entry.id, r.error))

/-- The required-law ids validated by `runCensus` (ingest.ts lines 128-135). -/
def requiredLaws : List String :=
  ["constitution-rf", "uk-rf", "gk-rf-1", "fz-152-2006", "fz-149-2006", "fz-187-2017"]

/-- The catalog-validation check of `runCensus`: every required id is found. -/
def censusValid (census : List CensusEntry) : Bool :=
  requiredLaws.all (fun req => census.any (fun e => decide (e.id = req)))

/-- Outcome of one pipeline invocation (`main`, ingest.ts lines 415-429):
either the process exits with a non-zero status during census validation
(before any ingestion and hence before any network call), or the run
completes with a report. -/
inductive PipelineResult where
  | aborted (exitCode : Nat)
  | completed (report : RunReport) (store : Store)
deriving DecidableEq

/-- Network calls performed by a pipeline invocation: the validation failure
path exits inside `runCensus`, before `runIngestion` (the only component that
touches the network) is reached. -/
def pipelineNetworkCalls : PipelineResult → Nat
  | .aborted _ => 0
  | .completed rpt _ => rpt.networkCalls

/-- `main` (ingest.ts lines 415-429): census validation first — `process.exit(1)`
if a required law is missing (runCensus lines 149-152) — then, unless
`--census-only`, the ingestion phase. -/
def runPipeline (censusOnly : Bool) (limit : Nat) (skipFetch : Bool)
    (runDate : String) (htmlParse : String → List ParsedProvision)
    (fetchO : String → FetchReply) (persistO : String → Bool)
    (census : List CensusEntry) (store : Store) : PipelineResult :=
  if censusValid census then
    if censusOnly then
      .completed ⟨0, 0, 0, 0, 0, [], 0⟩ store
    else
      .completed
        (runIngestion limit skipFetch runDate htmlParse fetchO persistO census store).2
        (runIngestion limit skipFetch runDate htmlParse fetchO persistO census store).1
  else .aborted 1

-- ═══════════════════════════════════════════════════════════════════════════
-- Derived observations used by the statements
-- ═══════════════════════════════════════════════════════════════════════════

/-- The resumability predicate of `ingestLaw`: a stored seed exists and has at
least one provision. -/
def hasValidSeed (store : Store) (id : String) : Bool :=
  match storeGet store id with
  | some (.seed f) => decide (f.provisions.length > 0)
  | _ => false

/-- The emitted provisions carrying a given article number, in order. -/
def occurrencesOf (a : String) (ps : List ParsedProvision) : List ParsedProvision :=
  ps.filter (fun p => decide (p.article = a))

/-- Bodies joined with a blank-line separator, in order. -/
def joinedBodies : List String → String
  | [] => ""
  | c :: rest => rest.foldl (fun acc d => acc ++ "\n\n" ++ d) c

/-- Content accumulation of the dedup merge: append each duplicate's body
after a blank-line separator. -/
def appendBodies (c : String) (ps : List ParsedProvision) : String :=
  ps.foldl (fun acc p => acc ++ "\n\n" ++ p.content) c

/-- A concrete catalog entry (the 149-FZ information law, an ingestable
federal law), used as a test input for the orchestrator theorems. -/
def sampleEntry149 : CensusEntry :=
  ⟨"fz-149-2006", "102108264",
   "Об информации, информационных технологиях и о защите информации",
   "On Information, Information Technologies and Information Protection",
   "149-ФЗ", "federal_law", "in_force", "2006-07-27", none, none,
   .ingestable, none, "http://pravo.gov.ru/proxy/ips/?docbody=&nd=102108264"⟩

-- ═══════════════════════════════════════════════════════════════════════════
-- Theorems
-- ═══════════════════════════════════════════════════════════════════════════

-- ───────────────────────────────────────────────────────────────────────────
-- C1: behaviour of fetchWithRateLimit when every attempt is retryable
-- ───────────────────────────────────────────────────────────────────────────

/-- C1 (corrected).  The claim said the call always fails after exhausting
retries; in fact only a network-level exception on the final attempt makes the
call fail: a 429/5xx HTTP response on the final attempt falls through the
retry guard and is RETURNED as a `FetchResult`.  This theorem proves the
amended statement: for a run whose non-final attempts are all retryable, the
outcome is decided by the final attempt — error for a network exception,
`.ok` carrying the final response for a retryable HTTP status. -/
theorem fetch_exhausted_retries_final_attempt (prev : List AttemptOutcome)
    (o : AttemptOutcome) (hprev : ∀ x ∈ prev, retryableOutcome x = true) :
    (∀ msg, o = .netError msg → runAttempts (prev ++ [o]) = .error msg) ∧
    (∀ st b ct, o = .response st b ct → retryableStatus st = true →
      runAttempts (prev ++ [o]) = .ok ⟨st, b, ct⟩) := by
  induction prev with
  | nil =>
    refine ⟨fun msg h => ?_, fun st b ct h _ => ?_⟩
    · subst h; rfl
    · subst h; simp [runAttempts]
  | cons p ps ih =>
    have hp : retryableOutcome p = true := hprev p (by simp)
    have hps : ∀ x ∈ ps, retryableOutcome x = true :=
      fun x hx => hprev x (by simp [hx])
    have ih' := ih hps
    have hne : (ps ++ [o]).isEmpty = false := by cases ps <;> rfl
    have hstep : runAttempts ((p :: ps) ++ [o]) = runAttempts (ps ++ [o]) := by
      cases p with
      | response st b ct =>
        have hst : retryableStatus st = true := hp
        simp [runAttempts, hst, hne]
      | netError msg =>
        simp [runAttempts, hne]
    exact ⟨fun msg h => hstep ▸ ih'.1 msg h,
           fun st b ct h hr => hstep ▸ ih'.2 st b ct h hr⟩

/-- C1 counterexample: with `maxRetries = 3`, four consecutive 429 responses
(every attempt up to the configured maximum) do NOT make the call fail — the
final 429 response is returned as a `FetchResult`, refuting the claim as
stated. -/
theorem fetch_exhausted_retries_http_counterexample :
    runAttempts [.response 429 "busy" "", .response 429 "busy" "",
                 .response 429 "busy" "", .response 429 "busy" ""] =
      .ok ⟨429, "busy", ""⟩ := rfl

/-- Witness for `fetch_exhausted_retries_final_attempt` at concrete inputs
(both branches). -/
theorem fetch_exhausted_retries_final_attempt_witness :
    runAttempts [.netError "timeout", .netError "socket hang up"] =
        .error "socket hang up" ∧
    runAttempts [.netError "timeout", .response 503 "down" ""] =
        .ok ⟨503, "down", ""⟩ :=
  ⟨(fetch_exhausted_retries_final_attempt [.netError "timeout"]
      (.netError "socket hang up") (by decide)).1 "socket hang up" rfl,
   (fetch_exhausted_retries_final_attempt [.netError "timeout"]
      (.response 503 "down" "") (by decide)).2 503 "down" "" rfl (by decide)⟩

-- ───────────────────────────────────────────────────────────────────────────
-- C2: minimum spacing enforced by the rate limiter
-- ───────────────────────────────────────────────────────────────────────────

/-- `rateLimit` always resumes at least `MIN_DELAY_MS` after the stored
`lastRequestTime`. -/
lemma rateLimitStep_ge (last now : Int) :
    last + MIN_DELAY_MS ≤ rateLimitStep last now := by
  unfold rateLimitStep
  split <;> omega

/-- The first request of a call is sent exactly when `rateLimit` returns. -/
lemma attemptSendTimes_head (attempt : Nat) (t : Int)
    (x : AttemptOutcome × Int) (rest : List (AttemptOutcome × Int)) :
    (attemptSendTimes attempt t (x :: rest)).1.head? = some t := by
  obtain ⟨o, d⟩ := x
  cases o <;> simp [attemptSendTimes] <;> split <;> simp

/-- C2 (corrected).  The claim required at least `MIN_DELAY_MS` between the
LAST request of one call and the first request of the next, even when the
first call retried internally; the code only spaces the FIRST requests of
consecutive calls, because `rateLimit()` runs once per call, before the retry
loop, and retries do not update `lastRequestTime`.  Amended statement, proved
here: for two consecutive `fetchWithRateLimit` calls, the gap between the
first-request send times is at least the configured minimum interval. -/
theorem rate_limit_first_request_spacing (last start1 start2 : Int)
    (a1 a2 : List (AttemptOutcome × Int)) (t1 t2 : Int)
    (h1 : (fetchCallTiming last start1 a1).sendTimes.head? = some t1)
    (h2 : (fetchCallTiming (fetchCallTiming last start1 a1).lastRequestTime
            start2 a2).sendTimes.head? = some t2) :
    t1 + MIN_DELAY_MS ≤ t2 := by
  cases a1 with
  | nil => simp [fetchCallTiming, attemptSendTimes] at h1
  | cons x1 r1 =>
    cases a2 with
    | nil => simp [fetchCallTiming, attemptSendTimes] at h2
    | cons x2 r2 =>
      have e1 : t1 = rateLimitStep last start1 := by
        have := attemptSendTimes_head 0 (rateLimitStep last start1) x1 r1
        simp [fetchCallTiming] at h1
        rw [this] at h1
        exact (Option.some_inj.mp h1).symm
      have hlast : (fetchCallTiming last start1 (x1 :: r1)).lastRequestTime =
          rateLimitStep last start1 := rfl
      have e2 : t2 = rateLimitStep (rateLimitStep last start1) start2 := by
        have := attemptSendTimes_head 0
          (rateLimitStep (rateLimitStep last start1) start2) x2 r2
        simp [fetchCallTiming, hlast] at h2
        rw [this] at h2
        exact (Option.some_inj.mp h2).symm
      subst e1 e2
      exact rateLimitStep_ge _ _

/-- C2 counterexample: call 1 starts at clock 0 (rate-limited to send at
1000), receives a 429, backs off 2000ms and re-sends at 3000, succeeding
instantly; call 2 issued immediately afterwards passes `rateLimit` without
sleeping (3000 - 1000 ≥ 1000) and sends at 3000 — a zero-millisecond gap
after the previous call's LAST request, refuting the claim as stated. -/
theorem rate_limit_retry_gap_counterexample :
    (fetchCallTiming 0 0 [(.response 429 "" "", 0), (.response 200 "" "", 0)]).sendTimes
        = [1000, 3000] ∧
    (fetchCallTiming 0 0 [(.response 429 "" "", 0),
        (.response 200 "" "", 0)]).finishTime = 3000 ∧
    (fetchCallTiming
        (fetchCallTiming 0 0 [(.response 429 "" "", 0),
          (.response 200 "" "", 0)]).lastRequestTime
        3000 [(.response 200 "" "", 0)]).sendTimes = [3000] ∧
    ((3000 : Int) - 3000 < MIN_DELAY_MS) := by decide

/-- Witness for `rate_limit_first_request_spacing` at concrete inputs. -/
theorem rate_limit_first_request_spacing_witness :
    (1000 : Int) + MIN_DELAY_MS ≤ 3000 :=
  rate_limit_first_request_spacing 0 0 3000
    [(.response 429 "" "", 0), (.response 200 "" "", 0)]
    [(.response 200 "" "", 0)] 1000 3000 (by decide) (by decide)

-- ───────────────────────────────────────────────────────────────────────────
-- C9: below-threshold body yields exactly the placeholder provision
-- ───────────────────────────────────────────────────────────────────────────

/-- When the resumability check does not fire, `ingestLaw` proceeds to the
fresh-ingestion path. -/
lemma ingestLaw_of_not_valid (skipFetch : Bool) (runDate : String)
    (htmlParse : String → List ParsedProvision) (fetchO : String → FetchReply)
    (persistO : String → Bool) (store : Store) (entry : CensusEntry)
    (h : hasValidSeed store entry.id = false) :
    ingestLaw skipFetch runDate htmlParse fetchO persistO store entry =
      ingestLawFresh skipFetch runDate htmlParse fetchO persistO store entry := by
  unfold hasValidSeed at h
  unfold ingestLaw
  cases hget : storeGet store entry.id with
  | none => rfl
  | some f =>
    cases f with
    | corrupt => rfl
    | seed g =>
      rw [hget] at h
      simp only [decide_eq_false_iff_not, Nat.not_lt, Nat.le_zero] at h
      simp [h]

/-- C9 (confirmed).  A processable entry with no usable stored seed whose
fetch succeeds with HTTP 200 but a body at or below the minimum-content
threshold (`body.length > 100` fails; e.g. a 40-byte body) is persisted as a
`SeedFile` containing exactly one placeholder provision, synthesized from the
entry's own title/description and source location, with reference key "0" and
position index 0, and is reported as ingested. -/
theorem short_body_yields_placeholder (runDate : String)
    (htmlParse : String → List ParsedProvision) (fetchO : String → FetchReply)
    (persistO : String → Bool) (store : Store) (entry : CensusEntry)
    (body ct : String)
    (hmiss : hasValidSeed store entry.id = false)
    (hclass : entry.classification = .ingestable)
    (hfetch : fetchO entry.nd = .reply 200 body ct)
    (hlen : body.length ≤ 100)
    (hpersist : persistO entry.id = true) :
    storeGet (ingestLaw false runDate htmlParse fetchO persistO store entry).store
        entry.id =
      some (.seed ⟨seedLawOf runDate entry, [placeholderProvision entry]⟩) ∧
    (ingestLaw false runDate htmlParse fetchO persistO store entry).outcome =
      .ok ⟨entry, true, 1, none⟩ ∧
    (placeholderProvision entry).provision_ref = some "0" ∧
    (placeholderProvision entry).order_index = some 0 := by
  rw [ingestLaw_of_not_valid _ _ _ _ _ _ _ hmiss]
  have hlt : ¬ 100 < body.length := by omega
  have hfp : fetchPhase false htmlParse fetchO entry = ([], 1) := by
    unfold fetchPhase
    rw [hfetch]
    simp [hlt]
  unfold ingestLawFresh
  rw [hfp]
  simp [hclass, hpersist, provisionsOrPlaceholder, storeSet, storeGet]
  exact ⟨rfl, rfl⟩

/-- Witness for `short_body_yields_placeholder` at a concrete entry. -/
theorem short_body_yields_placeholder_witness :
    (ingestLaw false "2026-02-25" (fun _ => [])
        (fun _ => .reply 200 "too short" "text/plain") (fun _ => true) []
        ⟨"fz-152-2006", "102108261", "О персональных данных", "On Personal Data",
         "152-ФЗ", "federal_law", "in_force", "2007-01-26", none, none,
         .ingestable, none, "http://pravo.gov.ru/proxy/ips/?docbody=&nd=102108261"⟩).outcome =
      .ok ⟨⟨"fz-152-2006", "102108261", "О персональных данных", "On Personal Data",
            "152-ФЗ", "federal_law", "in_force", "2007-01-26", none, none,
            .ingestable, none, "http://pravo.gov.ru/proxy/ips/?docbody=&nd=102108261"⟩,
           true, 1, none⟩ :=
  (short_body_yields_placeholder "2026-02-25" (fun _ => [])
    (fun _ => .reply 200 "too short" "text/plain") (fun _ => true) [] _
    "too short" "text/plain" (by decide) rfl rfl (by decide) rfl).2.1

-- ───────────────────────────────────────────────────────────────────────────
-- C4: the title/body classification of text trailing an article marker
-- ───────────────────────────────────────────────────────────────────────────

lemma startsWithSeq_head (l : List Char) (c : Char) (cs : List Char)
    (h : startsWithSeq l (c :: cs) = true) : ∃ t, l = c :: t := by
  cases l with
  | nil => simp [startsWithSeq] at h
  | cons x xs =>
    simp [startsWithSeq] at h
    exact ⟨xs, by rw [h.1]⟩

/-- Any line matching one of the article patterns starts (after leading
whitespace) with the literal `С` of `Статья`. -/
lemma article_keyword_head (l : List Char) (x : List Char × List Char)
    (h : articleLineMatch l = some x) :
    ∃ t, l.dropWhile jsWhitespace = 'С' :: t := by
  by_cases hs : startsWithSeq (l.dropWhile jsWhitespace) articleKeyword = true
  · exact startsWithSeq_head _ _ _ hs
  · exfalso
    unfold articleLineMatch matchArticleMain matchArticleAlt at h
    simp only [hs, Bool.false_eq_true, if_false, Option.orElse] at h
    exact Option.noConfusion h

/-- `flushArticle` always resets the per-article accumulator fields. -/
lemma flushArticle_clears (s : ParserState) :
    (flushArticle s).currentArticleNum = [] ∧
    (flushArticle s).currentArticleTitle = [] ∧
    (flushArticle s).currentContent = [] := by
  unfold flushArticle
  split
  · split
    · exact ⟨rfl, rfl, rfl⟩
    · exact ⟨rfl, rfl, rfl⟩
  · exact ⟨rfl, rfl, rfl⟩

/-- A line matching an article pattern is never an appendix marker: the
article patterns are case-sensitive on `Статья` while the appendix pattern
requires `Приложение` (case-insensitively), and `С`/`с` never folds to `п`. -/
lemma appendixTest_false_of_article (l : List Char) (x : List Char × List Char)
    (h : articleLineMatch l = some x) : appendixTest l = false := by
  obtain ⟨t, ht⟩ := article_keyword_head l x h
  unfold appendixTest
  rw [ht]
  have hC : (jsLower 'С' == jsLower 'п') = false := by decide
  simp [startsWithSeqCI, hC]

/-- C4 (corrected).  The claim said the trailing text is a title iff it is
short, not an enumerated sub-item, AND does not end in sentence-terminal
punctuation; the code checks only the first two conditions
(`restOfLine.length < 200 && !restOfLine.match(/^\d+\.\s/)`) — trailing
punctuation plays no role.  Amended statement, proved here: on an
article-start line the (trimmed) trailing text becomes the title iff it is
shorter than 200 characters and does not begin like an enumerated sub-item;
otherwise it becomes the first body line. -/
theorem article_title_heuristic (s : ParserState) (raw num rest : List Char)
    (h : articleLineMatch (jsTrim raw) = some (num, rest)) :
    (processLine s raw).currentArticleNum = num ∧
    ((jsTrim rest).length < 200 ∧ enumItemTest (jsTrim rest) = false →
      (processLine s raw).currentArticleTitle = jsTrim rest ∧
      (processLine s raw).currentContent = []) ∧
    (¬ ((jsTrim rest).length < 200 ∧ enumItemTest (jsTrim rest) = false) →
      (processLine s raw).currentArticleTitle = [] ∧
      (processLine s raw).currentContent = [jsTrim rest]) := by
  have happ := appendixTest_false_of_article _ _ h
  have hne : (jsTrim raw).isEmpty = false := by
    cases hl : jsTrim raw with
    | nil =>
      rw [hl] at h
      rw [show articleLineMatch ([] : List Char) = none from by decide] at h
      exact Option.noConfusion h
    | cons a t => rfl
  unfold processLine
  simp only [hne, happ, h, Option.isNone_some, Bool.and_false,
    Bool.false_eq_true, if_false]
  unfold processArticleStart
  have hclear := flushArticle_clears { s with inAppendix := false }
  by_cases hcond : (jsTrim rest).length < 200 ∧ enumItemTest (jsTrim rest) = false
  · have hb : (decide ((jsTrim rest).length < 200) && !enumItemTest (jsTrim rest)) = true := by
      simp [hcond.1, hcond.2]
    by_cases hr : jsTrim rest = []
    · simp [hr, hcond, hclear.2.1, hclear.2.2,
        show enumItemTest ([] : List Char) = false from by decide]
    · have hre : (jsTrim rest).isEmpty = false := by
        cases hl : jsTrim rest with
        | nil => exact absurd hl hr
        | cons a t => rfl
      simp [hre, hb, hcond, hclear.2.2]
  · have hr : jsTrim rest ≠ [] := by
      intro hl
      exact hcond (by rw [hl]; exact ⟨by decide, by decide⟩)
    have hre : (jsTrim rest).isEmpty = false := by
      cases hl : jsTrim rest with
      | nil => exact absurd hl hr
      | cons a t => rfl
    have hb : (decide ((jsTrim rest).length < 200) && !enumItemTest (jsTrim rest)) = false := by
      cases henum : enumItemTest (jsTrim rest) with
      | true => simp [henum]
      | false =>
        have hlen : ¬ (jsTrim rest).length < 200 := fun hl => hcond ⟨hl, henum⟩
        simp [hlen]
    simp [hre, hb, hcond, hclear.2.1, hclear.2.2]

/-- C4 counterexample: the trailing text `Клевета.` ends in sentence-terminal
punctuation, yet the parser classifies it as the article's title rather than
folding it into the body — refuting the iff as stated. -/
theorem article_title_punctuation_counterexample :
    (parseRussianText "Статья 5. Клевета.\nТекст статьи.").map
        (fun p => (p.title, p.content)) = [("Клевета.", "Текст статьи.")] ∧
    "Клевета.".toList.getLast? = some '.' := by decide

/-- Witness for `article_title_heuristic` at a concrete article-start line. -/
theorem article_title_heuristic_witness :
    (processLine initParserState "Статья 3. Право на информацию".toList).currentArticleTitle
      = "Право на информацию".toList ∧
    (processLine initParserState "Статья 3. Право на информацию".toList).currentContent
      = [] :=
  (article_title_heuristic initParserState "Статья 3. Право на информацию".toList
      ['3'] "Право на информацию".toList (by decide)).2.1 (by decide)

-- ───────────────────────────────────────────────────────────────────────────
-- C7: parse is total, indices are contiguous, bodies non-empty,
--     and no article marker means an empty result
-- ───────────────────────────────────────────────────────────────────────────

lemma reindexFrom_length (i : Nat) (ps : List ParsedProvision) :
    (reindexFrom i ps).length = ps.length := by
  induction ps generalizing i with
  | nil => rfl
  | cons p ps ih => simp [reindexFrom, ih]

lemma reindexFrom_map_order (i : Nat) (ps : List ParsedProvision) :
    (reindexFrom i ps).map (fun p => p.order_index) = List.range' i ps.length := by
  induction ps generalizing i with
  | nil => rfl
  | cons p ps ih => simp [reindexFrom, List.range'_succ, ih]

lemma parse_order_indices (text : String) :
    (parseRussianText text).map (fun p => p.order_index) =
      List.range (parseRussianText text).length := by
  unfold parseRussianText
  rw [reindexFrom_map_order, reindexFrom_length, List.range_eq_range']

lemma asString_ne_empty (l : List Char) (h : l.isEmpty = false) :
    l.asString ≠ "" := by
  cases l with
  | nil => exact absurd h (by decide)
  | cons c cs =>
    intro hc
    have := congrArg String.data hc
    simp [List.asString] at this

lemma flushArticle_contents (s : ParserState)
    (h : ∀ p ∈ s.provisions, p.content ≠ "") :
    ∀ p ∈ (flushArticle s).provisions, p.content ≠ "" := by
  unfold flushArticle
  split
  · split
    · intro p hp
      simp only [List.mem_append, List.mem_singleton] at hp
      rcases hp with hp | hp
      · exact h p hp
      · rw [hp]
        rename_i hcon
        exact asString_ne_empty _ (by revert hcon; cases (jsTrim
          (collapseNewlines (List.intercalate ['\n'] s.currentContent))).isEmpty <;> simp)
    · exact h
  · exact h

lemma processArticleStart_contents (s : ParserState) (num rest : List Char)
    (h : ∀ p ∈ s.provisions, p.content ≠ "") :
    ∀ p ∈ (processArticleStart s num rest).provisions, p.content ≠ "" := by
  unfold processArticleStart
  split
  · split
    · exact flushArticle_contents s h
    · exact flushArticle_contents s h
  · exact flushArticle_contents s h

lemma processLine_contents (s : ParserState) (l : List Char)
    (h : ∀ p ∈ s.provisions, p.content ≠ "") :
    ∀ p ∈ (processLine s l).provisions, p.content ≠ "" := by
  unfold processLine
  split
  · split
    · exact h
    · exact h
  · split
    · exact flushArticle_contents _ h
    · split
      · exact h
      · split
        · exact processArticleStart_contents { s with inAppendix := false } _ _ h
        · split
          · exact h
          · split
            · exact h
            · exact h

lemma foldl_processLine_contents (lines : List (List Char)) (s : ParserState)
    (h : ∀ p ∈ s.provisions, p.content ≠ "") :
    ∀ p ∈ (lines.foldl processLine s).provisions, p.content ≠ "" := by
  induction lines generalizing s with
  | nil => exact h
  | cons l ls ih => exact ih _ (processLine_contents s l h)

lemma string_data_append (a b : String) : (a ++ b).data = a.data ++ b.data := by
  cases a; cases b; rfl

lemma blankline_append_ne_empty (a b : String) : a ++ "\n\n" ++ b ≠ "" := by
  intro h
  have hd := congrArg String.data h
  rw [string_data_append, string_data_append] at hd
  simp at hd

lemma mergeInto_contents (acc : List ParsedProvision) (p : ParsedProvision)
    (hacc : ∀ q ∈ acc, q.content ≠ "") (hp : p.content ≠ "") :
    ∀ q ∈ mergeInto acc p, q.content ≠ "" := by
  induction acc with
  | nil =>
    intro q hq
    simp [mergeInto] at hq
    rw [hq]; exact hp
  | cons a rest ih =>
    intro q hq
    unfold mergeInto at hq
    split at hq
    · simp only [List.mem_cons] at hq
      rcases hq with hq | hq
      · rw [hq]; exact blankline_append_ne_empty _ _
      · exact hacc q (by simp [hq])
    · simp only [List.mem_cons] at hq
      rcases hq with hq | hq
      · rw [hq]; exact hacc a (by simp)
      · exact ih (fun r hr => hacc r (by simp [hr])) q hq

lemma dedup_fold_contents (ps acc : List ParsedProvision)
    (hps : ∀ p ∈ ps, p.content ≠ "") (hacc : ∀ q ∈ acc, q.content ≠ "") :
    ∀ q ∈ ps.foldl mergeInto acc, q.content ≠ "" := by
  induction ps generalizing acc with
  | nil => exact hacc
  | cons p rest ih =>
    exact ih (mergeInto acc p) (fun r hr => hps r (by simp [hr]))
      (mergeInto_contents acc p hacc (hps p (by simp)))

lemma reindexFrom_contents (i : Nat) (ps : List ParsedProvision)
    (h : ∀ p ∈ ps, p.content ≠ "") :
    ∀ p ∈ reindexFrom i ps, p.content ≠ "" := by
  induction ps generalizing i with
  | nil => intro p hp; simp [reindexFrom] at hp
  | cons q qs ih =>
    intro p hp
    simp only [reindexFrom, List.mem_cons] at hp
    rcases hp with hp | hp
    · rw [hp]; exact h q (by simp)
    · exact ih (i + 1) (fun r hr => h r (by simp [hr])) p hp

lemma parse_contents_ne_empty (text : String) :
    ∀ p ∈ parseRussianText text, p.content ≠ "" := by
  unfold parseRussianText dedupProvisions
  apply reindexFrom_contents
  apply dedup_fold_contents
  · unfold collectProvisions
    apply flushArticle_contents
    exact foldl_processLine_contents _ initParserState (by intro p hp; simp [initParserState] at hp)
  · intro q hq; simp at hq

lemma processLine_no_article (s : ParserState) (l : List Char)
    (hmatch : articleLineMatch (jsTrim l) = none)
    (hnum : s.currentArticleNum = []) (hprov : s.provisions = []) :
    (processLine s l).currentArticleNum = [] ∧
    (processLine s l).provisions = [] := by
  unfold processLine
  simp only [hmatch, Option.isNone_none, Bool.and_true]
  split
  · split
    · exact ⟨hnum, hprov⟩
    · exact ⟨hnum, hprov⟩
  · split
    · unfold flushArticle
      simp [hnum, hprov]
    · split
      · exact ⟨hnum, hprov⟩
      · split
        · exact ⟨hnum, hprov⟩
        · split
          · exact ⟨hnum, hprov⟩
          · exact ⟨hnum, hprov⟩

lemma foldl_no_article (lines : List (List Char)) (s : ParserState)
    (h : ∀ l ∈ lines, articleLineMatch (jsTrim l) = none)
    (hnum : s.currentArticleNum = []) (hprov : s.provisions = []) :
    (lines.foldl processLine s).currentArticleNum = [] ∧
    (lines.foldl processLine s).provisions = [] := by
  induction lines generalizing s with
  | nil => exact ⟨hnum, hprov⟩
  | cons l ls ih =>
    have step := processLine_no_article s l (h l (by simp)) hnum hprov
    exact ih (processLine s l) (fun x hx => h x (by simp [hx])) step.1 step.2

/-- C7 (confirmed).  `parseRussianText` is a total Lean function (so the
embedded parser cannot raise); for every input its position indices form a
contiguous 0-based sequence and every returned provision has a non-empty
body, and any text none of whose lines matches an article-start pattern
parses to the empty list. -/
theorem parse_total_contiguous_nonempty (text : String) :
    ((parseRussianText text).map (fun p => p.order_index) =
      List.range (parseRussianText text).length) ∧
    (∀ p ∈ parseRussianText text, p.content ≠ "") ∧
    ((∀ l ∈ splitLines text.toList, articleLineMatch (jsTrim l) = none) →
      parseRussianText text = []) := by
  refine ⟨parse_order_indices text, parse_contents_ne_empty text, fun h => ?_⟩
  have hfold := foldl_no_article (splitLines text.toList) initParserState h rfl rfl
  have hcoll : collectProvisions text = [] := by
    unfold collectProvisions flushArticle
    have h1 := hfold.1
    have h2 := hfold.2
    simp only [String.toList] at h1 h2
    simp [h1, h2]
  unfold parseRussianText dedupProvisions
  rw [hcoll]
  rfl

/-- Witness for `parse_total_contiguous_nonempty`: a text without any
article-start marker parses to the empty list. -/
theorem parse_total_contiguous_nonempty_witness :
    parseRussianText "Общие положения без статей.\nПросто текст." = [] :=
  (parse_total_contiguous_nonempty "Общие положения без статей.\nПросто текст.").2.2
    (by decide)

-- ───────────────────────────────────────────────────────────────────────────
-- C6 / C10: the deduplication pass
-- ───────────────────────────────────────────────────────────────────────────

lemma occurrencesOf_mergeInto_ne (acc : List ParsedProvision) (p : ParsedProvision)
    (a : String) (h : p.article ≠ a) :
    occurrencesOf a (mergeInto acc p) = occurrencesOf a acc := by
  induction acc with
  | nil => simp [mergeInto, occurrencesOf, h]
  | cons q rest ih =>
    unfold mergeInto
    split
    · rename_i heq
      have hq : ¬ q.article = a := by rw [heq]; exact h
      unfold occurrencesOf
      rw [List.filter_cons, List.filter_cons]
      simp [hq]
    · unfold occurrencesOf at ih ⊢
      rw [List.filter_cons, List.filter_cons]
      by_cases hq : q.article = a
      · simp [hq, ih]
      · simp [hq, ih]

lemma mergeInto_of_absent (acc : List ParsedProvision) (p : ParsedProvision)
    (a : String) (hp : p.article = a) (h : occurrencesOf a acc = []) :
    mergeInto acc p = acc ++ [p] := by
  induction acc with
  | nil => rfl
  | cons q rest ih =>
    unfold occurrencesOf at h ih
    rw [List.filter_cons] at h
    by_cases hq : q.article = a
    · simp [hq] at h
    · rw [if_neg (by simp [hq])] at h
      unfold mergeInto
      rw [if_neg (by rw [hp]; exact hq)]
      rw [ih h]
      rfl

lemma occurrencesOf_mergeInto_single (acc : List ParsedProvision)
    (p q : ParsedProvision) (a : String) (hp : p.article = a)
    (h : occurrencesOf a acc = [q]) :
    occurrencesOf a (mergeInto acc p) =
      [{ q with content := q.content ++ "\n\n" ++ p.content }] := by
  induction acc with
  | nil => simp [occurrencesOf] at h
  | cons r rest ih =>
    unfold occurrencesOf at h ih ⊢
    rw [List.filter_cons] at h
    by_cases hr : r.article = a
    · rw [if_pos (by simp [hr])] at h
      have hrq : r = q := by
        have := congrArg (fun l => List.head? l) h
        simpa using this
      have hrest : List.filter (fun p => decide (p.article = a)) rest = [] := by
        have := congrArg (fun l => List.tail l) h
        simpa using this
      unfold mergeInto
      rw [if_pos (by rw [hp, hr])]
      rw [List.filter_cons]
      rw [if_pos (by simp [hr])]
      rw [hrest, hrq]
    · rw [if_neg (by simp [hr])] at h
      unfold mergeInto
      rw [if_neg (by rw [hp]; exact hr)]
      rw [List.filter_cons]
      rw [if_neg (by simp [hr])]
      exact ih h

lemma occurrencesOf_dedup_fold_single (ps : List ParsedProvision) (a : String) :
    ∀ (acc : List ParsedProvision) (q : ParsedProvision),
      occurrencesOf a acc = [q] →
      occurrencesOf a (ps.foldl mergeInto acc) =
        [{ q with content := appendBodies q.content (occurrencesOf a ps) }] := by
  induction ps with
  | nil =>
    intro acc q h
    rw [List.foldl_nil, h]
    rfl
  | cons p rest ih =>
    intro acc q h
    rw [List.foldl_cons]
    by_cases hp : p.article = a
    · have hm := occurrencesOf_mergeInto_single acc p q a hp h
      rw [ih (mergeInto acc p) _ hm]
      have hocc : occurrencesOf a (p :: rest) = p :: occurrencesOf a rest := by
        unfold occurrencesOf
        rw [List.filter_cons, if_pos (by simp [hp])]
      rw [hocc]
      rfl
    · have hm := occurrencesOf_mergeInto_ne acc p a hp
      rw [ih (mergeInto acc p) q (by rw [hm]; exact h)]
      have hocc : occurrencesOf a (p :: rest) = occurrencesOf a rest := by
        unfold occurrencesOf
        rw [List.filter_cons, if_neg (by simp [hp])]
      rw [hocc]

lemma occurrencesOf_dedup_fold_nil (ps : List ParsedProvision) (a : String) :
    ∀ (acc : List ParsedProvision) (p : ParsedProvision) (l : List ParsedProvision),
      occurrencesOf a acc = [] → occurrencesOf a ps = p :: l →
      occurrencesOf a (ps.foldl mergeInto acc) =
        [{ p with content := appendBodies p.content l }] := by
  induction ps with
  | nil =>
    intro acc p l _ h
    simp [occurrencesOf] at h
  | cons r rest ih =>
    intro acc p l hacc h
    unfold occurrencesOf at h
    rw [List.filter_cons] at h
    rw [List.foldl_cons]
    by_cases hr : r.article = a
    · rw [if_pos (by simp [hr])] at h
      have hrp : r = p := by
        have := congrArg (fun l => List.head? l) h
        simpa using this
      have hl : occurrencesOf a rest = l := by
        have := congrArg (fun l => List.tail l) h
        simpa [occurrencesOf] using this
      have happ : mergeInto acc r = acc ++ [r] := mergeInto_of_absent acc r a hr hacc
      have hsingle : occurrencesOf a (acc ++ [r]) = [r] := by
        unfold occurrencesOf at hacc ⊢
        rw [List.filter_append, hacc]
        simp [hr]
      rw [happ]
      rw [occurrencesOf_dedup_fold_single rest a (acc ++ [r]) r hsingle, hl, hrp]
    · rw [if_neg (by simp [hr])] at h
      have hm := occurrencesOf_mergeInto_ne acc r a hr
      exact ih (mergeInto acc r) p l (by rw [hm]; exact hacc) h

lemma occurrencesOf_dedup (ps : List ParsedProvision) (a : String)
    (p : ParsedProvision) (l : List ParsedProvision)
    (h : occurrencesOf a ps = p :: l) :
    occurrencesOf a (dedupProvisions ps) =
      [{ p with content := appendBodies p.content l }] :=
  occurrencesOf_dedup_fold_nil ps a [] p l rfl h

lemma reindexFrom_occurrences_map_content (i : Nat) (ps : List ParsedProvision)
    (a : String) :
    (occurrencesOf a (reindexFrom i ps)).map (fun r => r.content) =
      (occurrencesOf a ps).map (fun r => r.content) := by
  induction ps generalizing i with
  | nil => rfl
  | cons p rest ih =>
    unfold occurrencesOf reindexFrom
    rw [List.filter_cons, List.filter_cons]
    by_cases hp : p.article = a
    · rw [if_pos (by simp [hp]), if_pos (by simp [hp])]
      unfold occurrencesOf at ih
      simp only [List.map_cons]
      rw [ih (i + 1)]
    · rw [if_neg (by simp [hp]), if_neg (by simp [hp])]
      exact ih (i + 1)

lemma reindexFrom_occurrences_map_titleref (i : Nat) (ps : List ParsedProvision)
    (a : String) :
    (occurrencesOf a (reindexFrom i ps)).map (fun r => (r.title, r.provision_ref)) =
      (occurrencesOf a ps).map (fun r => (r.title, r.provision_ref)) := by
  induction ps generalizing i with
  | nil => rfl
  | cons p rest ih =>
    unfold occurrencesOf reindexFrom
    rw [List.filter_cons, List.filter_cons]
    by_cases hp : p.article = a
    · rw [if_pos (by simp [hp]), if_pos (by simp [hp])]
      unfold occurrencesOf at ih
      simp only [List.map_cons]
      rw [ih (i + 1)]
    · rw [if_neg (by simp [hp]), if_neg (by simp [hp])]
      exact ih (i + 1)

/-- C6 (confirmed).  When the same article number is emitted more than once,
`parseRussianText` returns exactly one provision for that number, whose body
is the blank-line-separated concatenation of all occurrences' bodies in
first-seen order, and the position indices of the final list are a contiguous
0-based sequence. -/
theorem duplicate_articles_merged (text a : String) (p q : ParsedProvision)
    (l : List ParsedProvision)
    (h : occurrencesOf a (collectProvisions text) = p :: q :: l) :
    (occurrencesOf a (parseRussianText text)).map (fun r => r.content) =
      [joinedBodies ((p :: q :: l).map (fun r => r.content))] ∧
    (occurrencesOf a (parseRussianText text)).length = 1 ∧
    (parseRussianText text).map (fun r => r.order_index) =
      List.range (parseRussianText text).length := by
  have hded := occurrencesOf_dedup (collectProvisions text) a p (q :: l) h
  have hmap : (occurrencesOf a (parseRussianText text)).map (fun r => r.content) =
      [appendBodies p.content (q :: l)] := by
    unfold parseRussianText
    rw [reindexFrom_occurrences_map_content, hded]
    rfl
  have hjoin : joinedBodies ((p :: q :: l).map (fun r => r.content)) =
      appendBodies p.content (q :: l) := by
    unfold joinedBodies appendBodies
    simp only [List.map_cons]
    rw [← List.map_cons, List.foldl_map]
  refine ⟨by rw [hmap, hjoin], ?_, parse_order_indices text⟩
  have := congrArg List.length hmap
  simpa using this

/-- Witness for `duplicate_articles_merged`: article 1 appears twice; the
parsed output carries one provision for it with the concatenated body. -/
theorem duplicate_articles_merged_witness :
    (occurrencesOf "1"
        (parseRussianText "Статья 1. A\nодин\nСтатья 2. B\nдва\nСтатья 1. C\nтри")).map
      (fun r => r.content) = ["один\n\nтри"] :=
  (duplicate_articles_merged "Статья 1. A\nодин\nСтатья 2. B\nдва\nСтатья 1. C\nтри" "1"
    ⟨"1", "A", "один", "1", 0⟩ ⟨"1", "C", "три", "1", 2⟩ [] (by decide)).1

/-- C10 (confirmed).  The dedup merge keeps the title and the reference key of
the FIRST occurrence of a duplicated article number; later occurrences
contribute only their bodies. -/
theorem dedup_keeps_first_title_ref (text a : String) (p : ParsedProvision)
    (l : List ParsedProvision)
    (h : occurrencesOf a (collectProvisions text) = p :: l) :
    (occurrencesOf a (parseRussianText text)).map
        (fun r => (r.title, r.provision_ref)) =
      [(p.title, p.provision_ref)] := by
  have hded := occurrencesOf_dedup (collectProvisions text) a p l h
  unfold parseRussianText
  rw [reindexFrom_occurrences_map_titleref, hded]
  rfl

/-- Witness for `dedup_keeps_first_title_ref`: the merged provision keeps the
first occurrence's title `Alpha`, discarding the duplicate's title `Beta`. -/
theorem dedup_keeps_first_title_ref_witness :
    (occurrencesOf "7"
        (parseRussianText "Статья 7. Alpha\nраз\nСтатья 7. Beta\nдва")).map
      (fun r => (r.title, r.provision_ref)) = [("Alpha", "7")] :=
  dedup_keeps_first_title_ref "Статья 7. Alpha\nраз\nСтатья 7. Beta\nдва" "7"
    ⟨"7", "Alpha", "раз", "7", 0⟩ [⟨"7", "Beta", "два", "7", 1⟩] (by decide)

-- ───────────────────────────────────────────────────────────────────────────
-- C3 / C5 / C8: orchestrator lemmas
-- ───────────────────────────────────────────────────────────────────────────

lemma storeGet_storeSet (store : Store) (id id2 : String) (f : StoredFile) :
    storeGet (storeSet store id f) id2 =
      if id = id2 then some f else storeGet store id2 := rfl

lemma provisionsOrPlaceholder_length_pos (entry : CensusEntry)
    (ps : List SeedProvision) :
    0 < (provisionsOrPlaceholder entry ps).length := by
  unfold provisionsOrPlaceholder
  split
  · simp
  · rename_i hne
    cases hps : ps with
    | nil => rw [hps] at hne; simp at hne
    | cons a t => simp [hps]

/-- The resumability skip path (ingest.ts lines 192-205): a valid stored seed
short-circuits the entry with no store change and no network call. -/
lemma ingestLaw_skip (skipFetch : Bool) (runDate : String)
    (htmlParse : String → List ParsedProvision) (fetchO : String → FetchReply)
    (persistO : String → Bool) (store : Store) (entry : CensusEntry)
    (h : hasValidSeed store entry.id = true) :
    ∃ n, 0 < n ∧
      ingestLaw skipFetch runDate htmlParse fetchO persistO store entry =
        ⟨store, .ok ⟨entry, true, n, none⟩, 0⟩ := by
  unfold hasValidSeed at h
  cases hget : storeGet store entry.id with
  | none => rw [hget] at h; exact absurd h (by simp)
  | some f =>
    cases f with
    | corrupt => rw [hget] at h; exact absurd h (by simp)
    | seed g =>
      rw [hget] at h
      have hn : 0 < g.provisions.length := by simpa using h
      refine ⟨g.provisions.length, hn, ?_⟩
      unfold ingestLaw
      rw [hget]
      simp [hn]

/-- On the fresh path, an ingestable entry with a successful write produces a
success result and a seed with at least one provision. -/
lemma ingestLawFresh_ok (skipFetch : Bool) (runDate : String)
    (htmlParse : String → List ParsedProvision) (fetchO : String → FetchReply)
    (persistO : String → Bool) (store : Store) (entry : CensusEntry)
    (hclass : entry.classification = .ingestable)
    (hpersist : persistO entry.id = true) :
    ∃ provs ncalls, provs ≠ [] ∧
      ingestLawFresh skipFetch runDate htmlParse fetchO persistO store entry =
        ⟨storeSet store entry.id (.seed ⟨seedLawOf runDate entry, provs⟩),
         .ok ⟨entry, true, provs.length, none⟩, ncalls⟩ := by
  refine ⟨provisionsOrPlaceholder entry (fetchPhase skipFetch htmlParse fetchO entry).1,
          (fetchPhase skipFetch htmlParse fetchO entry).2, ?_, ?_⟩
  · have := provisionsOrPlaceholder_length_pos entry
      (fetchPhase skipFetch htmlParse fetchO entry).1
    intro hnil
    rw [hnil] at this
    simp at this
  · unfold ingestLawFresh
    simp [hclass, hpersist]

lemma bool_eq_false_of_not_true (b : Bool) (h : ¬ b = true) : b = false := by
  cases b
  · rfl
  · exact absurd rfl h

/-- An ingestable entry whose write succeeds always yields an ingested
(success) result and leaves a valid seed behind. -/
lemma ingestLaw_ok_of_ingestable (skipFetch : Bool) (runDate : String)
    (htmlParse : String → List ParsedProvision) (fetchO : String → FetchReply)
    (persistO : String → Bool) (store : Store) (entry : CensusEntry)
    (hclass : entry.classification = .ingestable)
    (hpersist : persistO entry.id = true) :
    ∃ n, (ingestLaw skipFetch runDate htmlParse fetchO persistO store entry).outcome =
        .ok ⟨entry, true, n, none⟩ ∧
      hasValidSeed
        (ingestLaw skipFetch runDate htmlParse fetchO persistO store entry).store
        entry.id = true := by
  by_cases hv : hasValidSeed store entry.id = true
  · obtain ⟨n, hn, heq⟩ :=
      ingestLaw_skip skipFetch runDate htmlParse fetchO persistO store entry hv
    exact ⟨n, by rw [heq], by rw [heq]; exact hv⟩
  · have hv' := bool_eq_false_of_not_true _ hv
    have hfresh := ingestLaw_of_not_valid skipFetch runDate htmlParse fetchO
      persistO store entry hv'
    obtain ⟨provs, ncalls, hne, heq⟩ :=
      ingestLawFresh_ok skipFetch runDate htmlParse fetchO persistO store entry
        hclass hpersist
    refine ⟨provs.length, by rw [hfresh, heq], ?_⟩
    rw [hfresh, heq]
    unfold hasValidSeed
    rw [show storeGet (storeSet store entry.id
        (.seed ⟨seedLawOf runDate entry, provs⟩)) entry.id =
        some (.seed ⟨seedLawOf runDate entry, provs⟩) from by
      rw [storeGet_storeSet]; simp]
    simp [List.length_pos.mpr hne]

/-- Processing any entry preserves every already-valid stored seed. -/
lemma hasValidSeed_preserved (skipFetch : Bool) (runDate : String)
    (htmlParse : String → List ParsedProvision) (fetchO : String → FetchReply)
    (persistO : String → Bool) (store : Store) (entry : CensusEntry) (id : String)
    (h : hasValidSeed store id = true) :
    hasValidSeed
      (ingestLaw skipFetch runDate htmlParse fetchO persistO store entry).store
      id = true := by
  by_cases hv : hasValidSeed store entry.id = true
  · obtain ⟨n, _, heq⟩ :=
      ingestLaw_skip skipFetch runDate htmlParse fetchO persistO store entry hv
    rw [heq]; exact h
  · rw [ingestLaw_of_not_valid skipFetch runDate htmlParse fetchO persistO store
      entry (bool_eq_false_of_not_true _ hv)]
    unfold ingestLawFresh
    split
    · exact h
    · split
      · unfold hasValidSeed
        rw [storeGet_storeSet]
        by_cases hid : entry.id = id
        · rw [if_pos hid]
          have := provisionsOrPlaceholder_length_pos entry
            (fetchPhase skipFetch htmlParse fetchO entry).1
          simp [this]
        · rw [if_neg hid]
          exact h
      · exact h

/-- The outcome of `ingestLaw` on an ingestable entry is either a success
result for that entry or a thrown write error — never a non-ingested result. -/
lemma ingestLaw_outcome_cases (skipFetch : Bool) (runDate : String)
    (htmlParse : String → List ParsedProvision) (fetchO : String → FetchReply)
    (persistO : String → Bool) (store : Store) (entry : CensusEntry)
    (hclass : entry.classification = .ingestable) :
    (∃ n, (ingestLaw skipFetch runDate htmlParse fetchO persistO store entry).outcome =
        .ok ⟨entry, true, n, none⟩) ∨
    (∃ msg, (ingestLaw skipFetch runDate htmlParse fetchO persistO store entry).outcome =
        .threw msg) := by
  by_cases hv : hasValidSeed store entry.id = true
  · obtain ⟨n, _, heq⟩ :=
      ingestLaw_skip skipFetch runDate htmlParse fetchO persistO store entry hv
    exact .inl ⟨n, by rw [heq]⟩
  · rw [ingestLaw_of_not_valid skipFetch runDate htmlParse fetchO persistO store
      entry (bool_eq_false_of_not_true _ hv)]
    by_cases hp : persistO entry.id = true
    · obtain ⟨provs, ncalls, _, heq⟩ :=
        ingestLawFresh_ok skipFetch runDate htmlParse fetchO persistO store entry
          hclass hp
      exact .inl ⟨provs.length, by rw [heq]⟩
    · refine .inr ⟨"EACCES: write failed for " ++ entry.id, ?_⟩
      unfold ingestLawFresh
      rw [if_neg (by simp [hclass]), if_neg hp]

lemma toProcessOf_ingestable (limit : Nat) (census : List CensusEntry) :
    ∀ e ∈ toProcessOf limit census, e.classification = .ingestable := by
  intro e he
  unfold toProcessOf at he
  split at he
  · have hmem := List.take_subset limit _ he
    have := List.mem_filter.mp hmem
    simpa using this.2
  · have := List.mem_filter.mp he
    simpa using this.2

/-- A run over ingestable entries whose writes all succeed: every entry is a
success, the failure list does not grow, and afterwards every processed
entry's id has a valid stored seed (and already-valid seeds stay valid). -/
lemma ingestFold_run_ok (skipFetch : Bool) (runDate : String)
    (htmlParse : String → List ParsedProvision) (fetchO : String → FetchReply)
    (persistO : String → Bool) :
    ∀ (entries : List CensusEntry) (store : Store) (rpt : RunReport),
      (∀ e ∈ entries, e.classification = .ingestable) →
      (∀ e ∈ entries, persistO e.id = true) →
      (entries.foldl (ingestFold skipFetch runDate htmlParse fetchO persistO)
          (store, rpt)).2.successCount = rpt.successCount + entries.length ∧
      ((entries.foldl (ingestFold skipFetch runDate htmlParse fetchO persistO)
          (store, rpt)).2.results).filter (fun r => !r.ingested) =
        rpt.results.filter (fun r => !r.ingested) ∧
      (entries.foldl (ingestFold skipFetch runDate htmlParse fetchO persistO)
          (store, rpt)).2.totalProcessed = rpt.totalProcessed ∧
      (∀ e ∈ entries,
        hasValidSeed (entries.foldl
          (ingestFold skipFetch runDate htmlParse fetchO persistO)
          (store, rpt)).1 e.id = true) ∧
      (∀ id, hasValidSeed store id = true →
        hasValidSeed (entries.foldl
          (ingestFold skipFetch runDate htmlParse fetchO persistO)
          (store, rpt)).1 id = true) := by
  intro entries
  induction entries with
  | nil =>
    intro store rpt _ _
    exact ⟨by simp, rfl, rfl, by simp, fun id h => h⟩
  | cons e rest ih =>
    intro store rpt hclass hpersist
    have hce : e.classification = .ingestable := hclass e (by simp)
    have hpe : persistO e.id = true := hpersist e (by simp)
    obtain ⟨n, hout, hvalid⟩ := ingestLaw_ok_of_ingestable skipFetch runDate
      htmlParse fetchO persistO store e hce hpe
    rw [List.foldl_cons]
    have hfold : ingestFold skipFetch runDate htmlParse fetchO persistO
        (store, rpt) e =
        ((ingestLaw skipFetch runDate htmlParse fetchO persistO store e).store,
         applyOutcome e rpt (.ok ⟨e, true, n, none⟩)
           (ingestLaw skipFetch runDate htmlParse fetchO persistO store e).networkCalls) := by
      unfold ingestFold
      rw [hout]
    rw [hfold]
    have happly : applyOutcome e rpt (.ok ⟨e, true, n, none⟩)
        (ingestLaw skipFetch runDate htmlParse fetchO persistO store e).networkCalls =
        { rpt with
          results := rpt.results ++ [⟨e, true, n, none⟩],
          successCount := rpt.successCount + 1,
          totalProvisions := rpt.totalProvisions + n,
          networkCalls := rpt.networkCalls +
            (ingestLaw skipFetch runDate htmlParse fetchO persistO store e).networkCalls } := by
      unfold applyOutcome
      simp
    rw [happly]
    obtain ⟨h1, h2, h3, h4, h5⟩ := ih
      (ingestLaw skipFetch runDate htmlParse fetchO persistO store e).store
      { rpt with
        results := rpt.results ++ [⟨e, true, n, none⟩],
        successCount := rpt.successCount + 1,
        totalProvisions := rpt.totalProvisions + n,
        networkCalls := rpt.networkCalls +
          (ingestLaw skipFetch runDate htmlParse fetchO persistO store e).networkCalls }
      (fun x hx => hclass x (by simp [hx])) (fun x hx => hpersist x (by simp [hx]))
    refine ⟨?_, ?_, h3, ?_, ?_⟩
    · rw [h1]; simp; omega
    · rw [h2]
      rw [List.filter_append]
      simp
    · intro x hx
      rcases List.mem_cons.mp hx with hx | hx
      · rw [hx]; exact h5 e.id hvalid
      · exact h4 x hx
    · intro id hid
      exact h5 id (hasValidSeed_preserved skipFetch runDate htmlParse fetchO
        persistO store e id hid)

/-- A run over entries that all have valid stored seeds: the store is
untouched, every entry is a skip-success, and no network call happens. -/
lemma ingestFold_skip_run (skipFetch : Bool) (runDate : String)
    (htmlParse : String → List ParsedProvision) (fetchO : String → FetchReply)
    (persistO : String → Bool) :
    ∀ (entries : List CensusEntry) (store : Store) (rpt : RunReport),
      (∀ e ∈ entries, hasValidSeed store e.id = true) →
      (entries.foldl (ingestFold skipFetch runDate htmlParse fetchO persistO)
          (store, rpt)).1 = store ∧
      (entries.foldl (ingestFold skipFetch runDate htmlParse fetchO persistO)
          (store, rpt)).2.successCount = rpt.successCount + entries.length ∧
      (entries.foldl (ingestFold skipFetch runDate htmlParse fetchO persistO)
          (store, rpt)).2.networkCalls = rpt.networkCalls := by
  intro entries
  induction entries with
  | nil => intro store rpt _; exact ⟨rfl, by simp, rfl⟩
  | cons e rest ih =>
    intro store rpt hvalid
    obtain ⟨n, hn, heq⟩ := ingestLaw_skip skipFetch runDate htmlParse fetchO
      persistO store e (hvalid e (by simp))
    rw [List.foldl_cons]
    have hfold : ingestFold skipFetch runDate htmlParse fetchO persistO
        (store, rpt) e = (store, applyOutcome e rpt (.ok ⟨e, true, n, none⟩) 0) := by
      unfold ingestFold
      rw [heq]
    rw [hfold]
    have happly : applyOutcome e rpt (.ok ⟨e, true, n, none⟩) 0 =
        { rpt with
          results := rpt.results ++ [⟨e, true, n, none⟩],
          successCount := rpt.successCount + 1,
          totalProvisions := rpt.totalProvisions + n,
          networkCalls := rpt.networkCalls + 0 } := by
      unfold applyOutcome
      simp
    rw [happly]
    obtain ⟨h1, h2, h3⟩ := ih store
      { rpt with
        results := rpt.results ++ [⟨e, true, n, none⟩],
        successCount := rpt.successCount + 1,
        totalProvisions := rpt.totalProvisions + n,
        networkCalls := rpt.networkCalls + 0 }
      (fun x hx => hvalid x (by simp [hx]))
    refine ⟨h1, ?_, ?_⟩
    · rw [h2]; simp; omega
    · rw [h3]; simp

/-- A run over ingestable entries with ARBITRARY write outcomes: every entry
contributes exactly one result (nothing stops the loop), and the failure
counter always equals the number of non-ingested results. -/
lemma ingestFold_run_general (skipFetch : Bool) (runDate : String)
    (htmlParse : String → List ParsedProvision) (fetchO : String → FetchReply)
    (persistO : String → Bool) :
    ∀ (entries : List CensusEntry) (store : Store) (rpt : RunReport),
      (∀ e ∈ entries, e.classification = .ingestable) →
      (entries.foldl (ingestFold skipFetch runDate htmlParse fetchO persistO)
          (store, rpt)).2.results.length = rpt.results.length + entries.length ∧
      (entries.foldl (ingestFold skipFetch runDate htmlParse fetchO persistO)
          (store, rpt)).2.totalProcessed = rpt.totalProcessed ∧
      (rpt.failCount = (rpt.results.filter (fun r => !r.ingested)).length →
        (entries.foldl (ingestFold skipFetch runDate htmlParse fetchO persistO)
            (store, rpt)).2.failCount =
          (((entries.foldl (ingestFold skipFetch runDate htmlParse fetchO persistO)
              (store, rpt)).2.results).filter (fun r => !r.ingested)).length) := by
  intro entries
  induction entries with
  | nil => intro store rpt _; exact ⟨by simp, rfl, fun h => h⟩
  | cons e rest ih =>
    intro store rpt hclass
    have hce : e.classification = .ingestable := hclass e (by simp)
    rw [List.foldl_cons]
    rcases ingestLaw_outcome_cases skipFetch runDate htmlParse fetchO persistO
        store e hce with ⟨n, hout⟩ | ⟨msg, hout⟩
    · have hfold : ingestFold skipFetch runDate htmlParse fetchO persistO
          (store, rpt) e =
          ((ingestLaw skipFetch runDate htmlParse fetchO persistO store e).store,
           { rpt with
             results := rpt.results ++ [⟨e, true, n, none⟩],
             successCount := rpt.successCount + 1,
             totalProvisions := rpt.totalProvisions + n,
             networkCalls := rpt.networkCalls +
               (ingestLaw skipFetch runDate htmlParse fetchO persistO store e).networkCalls }) := by
        unfold ingestFold
        rw [hout]
        unfold applyOutcome
        simp
      rw [hfold]
      obtain ⟨h1, h2, h3⟩ := ih
        (ingestLaw skipFetch runDate htmlParse fetchO persistO store e).store _
        (fun x hx => hclass x (by simp [hx]))
      refine ⟨?_, h2, ?_⟩
      · rw [h1]; simp; omega
      · intro hinv
        refine h3 ?_
        simp [List.filter_append, hinv]
    · have hfold : ingestFold skipFetch runDate htmlParse fetchO persistO
          (store, rpt) e =
          ((ingestLaw skipFetch runDate htmlParse fetchO persistO store e).store,
           { rpt with
             results := rpt.results ++ [⟨e, false, 0, some msg⟩],
             failCount := rpt.failCount + 1,
             networkCalls := rpt.networkCalls +
               (ingestLaw skipFetch runDate htmlParse fetchO persistO store e).networkCalls }) := by
        unfold ingestFold
        rw [hout]
        unfold applyOutcome
        simp
      rw [hfold]
      obtain ⟨h1, h2, h3⟩ := ih
        (ingestLaw skipFetch runDate htmlParse fetchO persistO store e).store _
        (fun x hx => hclass x (by simp [hx]))
      refine ⟨?_, h2, ?_⟩
      · rw [h1]; simp; omega
      · intro hinv
        refine h3 ?_
        simp [List.filter_append, hinv]

/-- C5 (confirmed).  Running the orchestrator twice in sequence over the same
catalog (writes succeeding) performs zero network calls on the second run —
every entry whose persisted seed exists with at least one provision is
skipped without fetching — and the second run's success count equals the
first run's. -/
theorem resumability_second_run (limit : Nat) (skipFetch : Bool)
    (rd1 rd2 : String) (hp1 hp2 : String → List ParsedProvision)
    (f1 f2 : String → FetchReply) (census : List CensusEntry) (store : Store) :
    (runIngestion limit skipFetch rd2 hp2 f2 (fun _ => true) census
        (runIngestion limit skipFetch rd1 hp1 f1 (fun _ => true) census store).1).2.networkCalls
      = 0 ∧
    (runIngestion limit skipFetch rd2 hp2 f2 (fun _ => true) census
        (runIngestion limit skipFetch rd1 hp1 f1 (fun _ => true) census store).1).2.successCount
      = (runIngestion limit skipFetch rd1 hp1 f1 (fun _ => true) census store).2.successCount := by
  have hrun1 := ingestFold_run_ok skipFetch rd1 hp1 f1 (fun _ => true)
    (toProcessOf limit census) store
    ⟨(toProcessOf limit census).length, 0, 0, 0, 0, [], 0⟩
    (toProcessOf_ingestable limit census) (fun _ _ => rfl)
  have hrun2 := ingestFold_skip_run skipFetch rd2 hp2 f2 (fun _ => true)
    (toProcessOf limit census)
    ((toProcessOf limit census).foldl
      (ingestFold skipFetch rd1 hp1 f1 (fun _ => true))
      (store, ⟨(toProcessOf limit census).length, 0, 0, 0, 0, [], 0⟩)).1
    ⟨(toProcessOf limit census).length, 0, 0, 0, 0, [], 0⟩
    hrun1.2.2.2.1
  unfold runIngestion
  refine ⟨hrun2.2.2, ?_⟩
  rw [hrun2.2.1, hrun1.1]

/-- C3 (corrected).  The claim said entries that yield no real content appear
in the report's failure list and are excluded from the successes; in fact
`ingestLaw` reports a placeholder entry as ingested (`ingested: true`), so it
is counted as a success and never appears in the failed-laws listing.
Amended statement, proved here: in a run whose writes succeed, EVERY
processed entry — including every placeholder case, whatever the fetch
oracle returns — is counted as a success, and the failure list is empty;
the failure list can only ever record entries whose processing threw. -/
theorem placeholder_counted_as_success (limit : Nat) (skipFetch : Bool)
    (runDate : String) (htmlParse : String → List ParsedProvision)
    (fetchO : String → FetchReply) (census : List CensusEntry) (store : Store) :
    (runIngestion limit skipFetch runDate htmlParse fetchO (fun _ => true)
        census store).2.successCount = (toProcessOf limit census).length ∧
    failedLaws (runIngestion limit skipFetch runDate htmlParse fetchO
        (fun _ => true) census store).2 = [] := by
  have h := ingestFold_run_ok skipFetch runDate htmlParse fetchO (fun _ => true)
    (toProcessOf limit census) store
    ⟨(toProcessOf limit census).length, 0, 0, 0, 0, [], 0⟩
    (toProcessOf_ingestable limit census) (fun _ _ => rfl)
  unfold runIngestion
  refine ⟨by rw [h.1]; simp, ?_⟩
  unfold failedLaws
  rw [h.2.1]
  rfl

/-- C3 counterexample: a single-entry run whose fetch returns HTTP 200 with a
body below the minimum-content threshold persists only the placeholder
provision (no real content), yet the run report counts the entry as a
success and its failure list is empty — refuting the claim as stated. -/
theorem placeholder_failure_list_counterexample :
    (runIngestion 0 false "2026-02-25" (fun _ => [])
        (fun _ => .reply 200 "короткий ответ" "text/plain") (fun _ => true)
        [sampleEntry149] []).2.successCount = 1 ∧
    failedLaws (runIngestion 0 false "2026-02-25" (fun _ => [])
        (fun _ => .reply 200 "короткий ответ" "text/plain") (fun _ => true)
        [sampleEntry149] []).2 = [] ∧
    storeGet (runIngestion 0 false "2026-02-25" (fun _ => [])
        (fun _ => .reply 200 "короткий ответ" "text/plain") (fun _ => true)
        [sampleEntry149] []).1 "fz-149-2006" =
      some (.seed ⟨seedLawOf "2026-02-25" sampleEntry149,
        [placeholderProvision sampleEntry149]⟩) := by
  decide

/-- C8 (confirmed).  If any designated required law id is missing from the
catalog, the pipeline aborts with exit code 1 before any network call; when
the catalog validates, the run always completes — every selected entry
contributes exactly one result (per-entry failures never stop the loop), and
the failure counter equals the length of the failed-laws listing. -/
theorem catalog_validation_gate (censusOnly : Bool) (limit : Nat)
    (skipFetch : Bool) (runDate : String)
    (htmlParse : String → List ParsedProvision) (fetchO : String → FetchReply)
    (persistO : String → Bool) (census : List CensusEntry) (store : Store) :
    ((∃ req ∈ requiredLaws, ∀ e ∈ census, e.id ≠ req) →
      runPipeline censusOnly limit skipFetch runDate htmlParse fetchO persistO
          census store = .aborted 1 ∧
      pipelineNetworkCalls (runPipeline censusOnly limit skipFetch runDate
        htmlParse fetchO persistO census store) = 0) ∧
    (censusValid census = true →
      ∃ rpt st,
        runPipeline false limit skipFetch runDate htmlParse fetchO persistO
            census store = .completed rpt st ∧
        rpt.results.length = (toProcessOf limit census).length ∧
        rpt.failCount = (failedLaws rpt).length) := by
  constructor
  · intro hmiss
    obtain ⟨req, hreq, hnone⟩ := hmiss
    have hval : censusValid census = false := by
      apply bool_eq_false_of_not_true
      intro hall
      have hany := List.all_eq_true.mp hall req hreq
      obtain ⟨e, he, heq⟩ := List.any_eq_true.mp hany
      exact hnone e he (of_decide_eq_true heq)
    unfold runPipeline
    rw [hval]
    exact ⟨rfl, rfl⟩
  · intro hval
    have h := ingestFold_run_general skipFetch runDate htmlParse fetchO persistO
      (toProcessOf limit census) store
      ⟨(toProcessOf limit census).length, 0, 0, 0, 0, [], 0⟩
      (toProcessOf_ingestable limit census)
    refine ⟨(runIngestion limit skipFetch runDate htmlParse fetchO persistO
        census store).2,
      (runIngestion limit skipFetch runDate htmlParse fetchO persistO
        census store).1, ?_, ?_, ?_⟩
    · unfold runPipeline
      rw [hval]
      rfl
    · unfold runIngestion
      rw [h.1]
      simp
    · simp only [failedLaws, List.length_map]
      unfold runIngestion
      exact h.2.2 rfl

/-- Witness for `catalog_validation_gate`: a one-entry catalog missing
`constitution-rf` makes the pipeline abort with exit code 1. -/
theorem catalog_validation_gate_witness :
    runPipeline false 0 false "2026-02-25" (fun _ => [])
        (fun _ => .netThrow "offline") (fun _ => true) [sampleEntry149] [] =
      .aborted 1 :=
  ((catalog_validation_gate false 0 false "2026-02-25" (fun _ => [])
      (fun _ => .netThrow "offline") (fun _ => true) [sampleEntry149] []).1
    (by decide)).1

end RussianLawMCP












